import Mathlib

/-!
Verification development for a TypeScript RAG (retrieval-augmented generation)
service: PDF ingestion (`DocumentProcessingWorkflow`), a pgvector-backed store
(`VectorSearchTool`), a chat agent (`RAGAgent`) and an Express HTTP layer.

External services (PostgreSQL pool, OpenAI embedding/completion endpoints, the
PDF parser, the Mastra document chunker and the LibSQL vector store) are
modelled as oracle functions returning `Except Err` values; the SQL table
`document_chunks` is modelled as a list of rows.  Machine floats of the
embeddings are modelled as rationals.
-/

deriving instance DecidableEq for Except

namespace RAG

/-- An error thrown by an external service (a rejected promise). -/
structure Err where
  message : String
deriving DecidableEq, Repr

/-- Mirror of `DocumentChunk` in `types.ts`: one row of the
`document_chunks` table. -/
structure DocumentChunk where
  id : String
  content : String
  document : String
  page : Nat
  embedding : List ℚ
deriving DecidableEq, Repr

/-- Mirror of `SearchResult` in `types.ts`. -/
structure SearchResult where
  id : String
  content : String
  document : String
  page : Nat
  similarity : ℚ
deriving DecidableEq, Repr

/-- Mirror of the `role` field of `ChatMessage` in `types.ts`. -/
inductive Role where
  | user
  | assistant
deriving DecidableEq, Repr

/-- Mirror of `ChatMessage` in `types.ts` (the optional `sources` field is
never read by the backend and is omitted). -/
structure ChatMessage where
  role : Role
  content : String
deriving DecidableEq, Repr

/-- Mirror of the `status` field of `ProcessedDocument` in `types.ts`. -/
inductive DocStatus where
  | processed
  | error
deriving DecidableEq, Repr

/-- Mirror of `ProcessedDocument` in `types.ts`. -/
structure ProcessedDocument where
  name : String
  chunks : Nat
  status : DocStatus
deriving DecidableEq, Repr

/-- The state of the `document_chunks` SQL table: a sequence of rows. -/
abbrev Table := List DocumentChunk

/-! ## VectorSearchTool (`src/mastra/tools/vector-search.ts`)

`storeChunk` runs
`INSERT ... ON CONFLICT (id) DO UPDATE SET content = EXCLUDED.content,
embedding = EXCLUDED.embedding`; `searchSimilarChunks` runs
`SELECT id, content, document, page, 1 - (embedding <=> $1) as similarity
FROM document_chunks ORDER BY embedding <=> $1 LIMIT $2`.
The pgvector operator `<=>` (cosine distance) lives outside the repository;
the SQL-level semantics below is stated for an arbitrary distance function
`dist`. -/

/-- Database-side effect of `storeChunk`'s upsert: if a row with the chunk's
`id` exists, only its `content` and `embedding` columns are replaced
(`DO UPDATE SET content, embedding`); otherwise the row is inserted. -/
def storeChunkEval (t : Table) (c : DocumentChunk) : Table :=
  if (List.any t fun r => r.id == c.id) then
    List.map (fun r =>
      if r.id == c.id then
        { r with content := c.content, embedding := c.embedding }
      else r) t
  else t ++ [c]

/-- The `storeChunk` method: a single `pool.query` with no try/catch, so a
failed database interaction propagates to the caller. -/
def storeChunk (db : Except Err Table) (c : DocumentChunk) : Except Err Table :=
  match db with
  | .error e => .error e
  | .ok t => .ok (storeChunkEval t c)

/-- Database-side evaluation of `searchSimilarChunks`'s query:
sort rows by `dist row.embedding q` ascending (`ORDER BY embedding <=> $1`),
keep the first `limit` rows (`LIMIT $2`), and project each row to a
`SearchResult` whose `similarity` is `1 - dist` (the `SELECT` list). -/
def searchEval (dist : List ℚ → List ℚ → ℚ) (t : Table) (q : List ℚ)
    (limit : Nat) : List SearchResult :=
  ((List.mergeSort t fun r s =>
      decide (dist r.embedding q ≤ dist s.embedding q)).take limit).map
    fun r =>
      { id := r.id, content := r.content, document := r.document,
        page := r.page, similarity := 1 - dist r.embedding q }

/-- The `searchSimilarChunks` method: a single `pool.query` with no
try/catch, so a failed database interaction propagates to the caller. -/
def searchSimilarChunks (dist : List ℚ → List ℚ → ℚ) (db : Except Err Table)
    (q : List ℚ) (limit : Nat) : Except Err (List SearchResult) :=
  match db with
  | .error e => .error e
  | .ok t => .ok (searchEval dist t q limit)

/-- The `getProcessedDocuments` method:
`SELECT DISTINCT document FROM document_chunks`, again with no try/catch. -/
def getProcessedDocuments (db : Except Err Table) : Except Err (List String) :=
  match db with
  | .error e => .error e
  | .ok t => .ok ((t.map fun r => r.document).dedup)

/-! ## Decimal rendering

JavaScript template literals render the loop index in decimal, which the
embedding writes as `Nat.repr`.  The claims about chunk-id uniqueness need
injectivity of `Nat.repr`, proved here via an explicit decimal decoder. -/

/-- The decimal digit string of `n`, built from most significant digit to
least significant digit. -/
def decChars (n : Nat) : List Char :=
  if _h : n < 10 then [Nat.digitChar n]
  else decChars (n / 10) ++ [Nat.digitChar (n % 10)]
decreasing_by
  exact Nat.div_lt_self (by omega) (by omega)

/-- Decode a decimal digit string back to a number. -/
def decodeDec (l : List Char) : Nat :=
  l.foldl (fun a c => 10 * a + (c.toNat - 48)) 0

/-! ## RAGAgent (`src/mastra/agents/rag-agent.ts`) -/

/-- A message sent to the OpenAI chat-completion endpoint. -/
structure OpenAIMessage where
  role : String
  content : String
deriving DecidableEq, Repr

/-- The argument object of `openai.chat.completions.create` as built by
`generateResponse`. -/
structure CompletionRequest where
  model : String
  messages : List OpenAIMessage
  maxTokens : Nat
  temperature : ℚ
  stream : Bool
deriving DecidableEq, Repr

/-- One external call made by `generateResponse`, in order. -/
inductive AgentCall where
  | embedCall (model input : String)
  | searchCall (embedding : List ℚ) (limit : Nat)
  | completionCall (req : CompletionRequest)
deriving DecidableEq, Repr

/-- The value returned by `generateResponse` on success. -/
structure AgentResponse where
  response : String
  sources : List SearchResult
deriving DecidableEq, Repr

/-- The external world as seen by `RAGAgent`: the embeddings endpoint, the
database behind `VectorSearchTool` (with its distance operator), and the
chat-completion endpoint, whose streamed chunks each carry an optional
`delta.content`. -/
structure AgentEnv where
  embed : String → String → Except Err (List ℚ)
  dist : List ℚ → List ℚ → ℚ
  db : Except Err Table
  complete : CompletionRequest → Except Err (List (Option String))

/-- The embedding model named in `generateResponse`
(`model: 'text-embedding-ada-002'`). -/
def queryEmbeddingModel : String := "text-embedding-ada-002"

/-- The system prompt of `generateResponse` (its exact text is irrelevant to
the claims; it is carried as an opaque constant of the embedding). -/
def systemPrompt : String :=
  "You are a knowledgeable financial analyst specializing in Warren " ++
  "Buffett\x27s investment philosophy and Berkshire Hathaway\x27s business " ++
  "strategy. Your expertise comes from analyzing years of Berkshire " ++
  "Hathaway annual shareholder letters."

/-- The context block: one paragraph per retrieved chunk,
`From {document}, page {page}:\n{content}`, joined by blank lines. -/
def contextOf (chunks : List SearchResult) : String :=
  String.intercalate "\n\n" (chunks.map fun c =>
    "From " ++ c.document ++ ", page " ++ Nat.repr c.page ++ ":\n" ++ c.content)

/-- Render a `ChatMessage` role the way the JSON body does. -/
def roleString : Role → String
  | .user => "user"
  | .assistant => "assistant"

/-- The message list sent to the completion endpoint: system prompt, then the
conversation history, then the user turn carrying the retrieved context. -/
def chatMessages (userMessage : String) (history : List ChatMessage)
    (context : String) : List OpenAIMessage :=
  { role := "system", content := systemPrompt } ::
    (history.map fun m => { role := roleString m.role, content := m.content }) ++
    [{ role := "user",
       content := "Context from Berkshire Hathaway shareholder letters:\n" ++
         context ++ "\n\nQuestion: " ++ userMessage }]

/-- The completion request built by `generateResponse`: `model: "gpt-4o"`,
`max_tokens: 1000`, `temperature: 0.7`, `stream: true`. -/
def mkCompletionRequest (messages : List OpenAIMessage) : CompletionRequest :=
  { model := "gpt-4o", messages := messages, maxTokens := 1000,
    temperature := 7/10, stream := true }

/-- `RAGAgent.generateResponse`: embed the user message, fetch the top five
similar chunks, build one prompt, make one completion call and concatenate
its streamed deltas (`response += chunk.choices[0]?.delta?.content || ''`).
The method has no try/catch: a failure of any of the three external calls
propagates to the caller.  The second component records the external calls
made before returning. -/
def generateResponse (env : AgentEnv) (userMessage : String)
    (history : List ChatMessage) :
    Except Err AgentResponse × List AgentCall :=
  match env.embed queryEmbeddingModel userMessage with
  | .error e => (.error e, [.embedCall queryEmbeddingModel userMessage])
  | .ok queryEmbedding =>
    match searchSimilarChunks env.dist env.db queryEmbedding 5 with
    | .error e =>
      (.error e, [.embedCall queryEmbeddingModel userMessage,
                  .searchCall queryEmbedding 5])
    | .ok relevantChunks =>
      let context := contextOf relevantChunks
      let req := mkCompletionRequest (chatMessages userMessage history context)
      match env.complete req with
      | .error e =>
        (.error e, [.embedCall queryEmbeddingModel userMessage,
                    .searchCall queryEmbedding 5, .completionCall req])
      | .ok deltas =>
        (.ok { response := String.join (deltas.map fun d => d.getD ""),
               sources := relevantChunks },
         [.embedCall queryEmbeddingModel userMessage,
          .searchCall queryEmbedding 5, .completionCall req])

/-! ## DocumentProcessingWorkflow (`src/mastra/workflows/document-processing.ts`) -/

/-- The options object passed to `mDocument.chunk`. -/
structure ChunkOptions where
  strategy : String
  size : Nat
  overlap : Nat
deriving DecidableEq, Repr

/-- One chunk as returned by `mDocument.chunk`: its text and the optional
`metadata.page`. -/
structure ChunkData where
  text : String
  page : Option Nat
deriving DecidableEq, Repr

/-- Statistics object returned by `vectorStore.describeIndex`. -/
structure IndexStats where
  dimension : Nat
  count : Nat
deriving DecidableEq, Repr

/-- The external world as seen by the workflow: the PDF parser, the chunker,
the LibSQL vector store (`createIndex`, `upsert`, `query`, `listIndexes`,
`describeIndex`), the embeddings endpoint, and the filesystem. -/
structure WorkflowEnv where
  parse : String → Except Err String
  chunkDoc : String → ChunkOptions → List ChunkData
  createIndex : String → Nat → Except Err Unit
  embed : String → String → Except Err (List ℚ)
  upsert : String → List (String × List ℚ) → Except Err Unit
  readdir : String → Except Err (List String)
  storeQuery : String → List ℚ → Nat → Except Err (List String)
  listIdx : Except Err (List String)
  describeIdx : String → Except Err IndexStats

/-- The embedding model named in the ingestion loop of `processDocument`
(`openai.embedding('text-embedding-3-small')`). -/
def ingestionEmbeddingModel : String := "text-embedding-3-small"

/-- JavaScript `x || d` on the optional numeric `chunk.metadata?.page`:
`undefined` and `0` are falsy, every other number is kept. -/
def jsOrNat (x : Option Nat) (d : Nat) : Nat :=
  match x with
  | some p => if p = 0 then d else p
  | none => d

/-- The characters after the last `/` of a path. -/
def lastComponent (l : List Char) : List Char :=
  l.foldl (fun acc c => if c = '/' then [] else acc ++ [c]) []

/-- JavaScript `s.endsWith(post)` on the characters of the strings. -/
def strEndsWith (s post : String) : Bool :=
  List.isSuffixOf post.data s.data

/-- `path.basename(p, suffix)`: the last `/`-separated component, with
`suffix` removed when it ends the name. -/
def basename (p : String) (suffix : String) : String :=
  let base := lastComponent p.data
  if List.isSuffixOf suffix.data base then
    ⟨base.take (base.length - suffix.data.length)⟩
  else ⟨base⟩

/-- `path.join(dir, file)` for the simple shapes used here. -/
def joinPath (dir file : String) : String := dir ++ "/" ++ file

/-- Whether `pat` occurs inside `s` (JavaScript `s.includes(pat)`). -/
def containsSubstr (s pat : String) : Bool := (s.splitOn pat).length > 1

/-- The chunk id template of `processDocument`:
`` `${documentName}-chunk-${i}` ``. -/
def chunkId (doc : String) (i : Nat) : String :=
  doc ++ "-chunk-" ++ Nat.repr i

/-- The `DocumentChunk` record built for chunk `i` of a document
(lines 107–113 of `document-processing.ts`). -/
def mkDocumentChunk (doc : String) (i : Nat) (c : ChunkData)
    (embedding : List ℚ) : DocumentChunk :=
  { id := chunkId doc i, content := c.text, document := doc,
    page := jsOrNat c.page 1, embedding := embedding }

/-- The ingestion loop of `processDocument` (lines 84–117): for each chunk,
embed its text with `text-embedding-3-small` and upsert the resulting row via
`storeChunk`.  On an embedding failure the error is thrown out of the loop;
rows already written stay written (no rollback). -/
def ingestChunks (env : WorkflowEnv) (doc : String) :
    List ChunkData → Nat → Table → Except (Table × Err) (Table × List DocumentChunk)
  | [], _, t => .ok (t, [])
  | c :: rest, i, t =>
    match env.embed ingestionEmbeddingModel c.text with
    | .error e => .error (t, e)
    | .ok embedding =>
      let dc := mkDocumentChunk doc i c embedding
      match ingestChunks env doc rest (i + 1) (storeChunkEval t dc) with
      | .error te => .error te
      | .ok (t', stored) => .ok (t', dc :: stored)

/-- `DocumentProcessingWorkflow.processDocument`: parse the PDF, chunk it
(`strategy: 'markdown', size: 1000, overlap: 200`), create the per-document
index (tolerating an `already exists` failure), run the ingestion loop, then
upsert into the Mastra vector store.  The whole body is wrapped in try/catch:
every failure yields `{name, chunks: 0, status: 'error'}`; partial table
updates persist. -/
def processDocument (env : WorkflowEnv) (t : Table) (filePath : String) :
    ProcessedDocument × Table :=
  let documentName := basename filePath ".pdf"
  match env.parse filePath with
  | .error _ => ({ name := documentName, chunks := 0, status := .error }, t)
  | .ok text =>
    let chunks := env.chunkDoc text
      { strategy := "markdown", size := 1000, overlap := 200 }
    let idxOutcome : Except Err Unit :=
      match env.createIndex documentName 1536 with
      | .error e =>
        if containsSubstr e.message "already exists" then .ok () else .error e
      | .ok _ => .ok ()
    match idxOutcome with
    | .error _ => ({ name := documentName, chunks := 0, status := .error }, t)
    | .ok _ =>
      match ingestChunks env documentName chunks 0 t with
      | .error (t', _) =>
        ({ name := documentName, chunks := 0, status := .error }, t')
      | .ok (t', stored) =>
        match env.upsert documentName
            (stored.map fun dc => (dc.id, dc.embedding)) with
        | .error _ =>
          ({ name := documentName, chunks := 0, status := .error }, t')
        | .ok _ =>
          ({ name := documentName, chunks := stored.length,
             status := .processed }, t')

/-- The per-file loop of `processAllDocuments`. -/
def processFiles (env : WorkflowEnv) (dir : String) :
    List String → Table → List ProcessedDocument × Table
  | [], t => ([], t)
  | f :: fs, t =>
    let rt := processDocument env t (joinPath dir f)
    let rest := processFiles env dir fs rt.2
    (rt.1 :: rest.1, rest.2)

/-- `DocumentProcessingWorkflow.processAllDocuments`: list the directory,
keep the `.pdf` files, process them in order; a failed directory read is
caught and yields the empty result list. -/
def processAllDocuments (env : WorkflowEnv) (t : Table) (dir : String) :
    List ProcessedDocument × Table :=
  match env.readdir dir with
  | .error _ => ([], t)
  | .ok files =>
    processFiles env dir (files.filter fun f => strEndsWith f ".pdf") t

/-- `DocumentProcessingWorkflow.searchSimilarContent`: embed the query with
`text-embedding-3-small` and query the Mastra vector store; any failure is
caught and yields `[]`. -/
def searchSimilarContent (env : WorkflowEnv) (query : String)
    (indexName : String) (limit : Nat) : List String :=
  match env.embed ingestionEmbeddingModel query with
  | .error _ => []
  | .ok embedding =>
    match env.storeQuery indexName embedding limit with
    | .error _ => []
    | .ok results => results

/-- `DocumentProcessingWorkflow.listIndexes`: any failure is caught and
yields `[]`. -/
def listIndexes (env : WorkflowEnv) : List String :=
  match env.listIdx with
  | .error _ => []
  | .ok l => l

/-- `DocumentProcessingWorkflow.getIndexStats`: any failure is caught and
yields `null`. -/
def getIndexStats (env : WorkflowEnv) (indexName : String) : Option IndexStats :=
  match env.describeIdx indexName with
  | .error _ => none
  | .ok s => some s

/-! ## The `POST /api/chat` handler (`src/mastra/index.ts`, lines 124–183) -/

/-- A JavaScript value as found in a parsed JSON request body field. -/
inductive JsVal where
  | undef
  | null
  | bool (b : Bool)
  | num (q : ℚ)
  | str (s : String)
  | arr
  | obj
deriving DecidableEq, Repr

/-- JavaScript truthiness of a body field value. -/
def jsTruthy : JsVal → Bool
  | .undef => false
  | .null => false
  | .bool b => b
  | .num q => decide (q ≠ 0)
  | .str s => decide (s ≠ "")
  | .arr => true
  | .obj => true

/-- JavaScript `typeof v === 'string'`. -/
def jsIsString : JsVal → Bool
  | .str _ => true
  | _ => false

/-- The observable outcome of one `POST /api/chat` request. -/
structure ChatOutcome where
  status : Nat
  agentInvoked : Bool
deriving DecidableEq, Repr

/-- The `POST /api/chat` handler: destructure `message` from the body (an
absent field reads as `undefined`); `if (!message || typeof message !==
'string')` respond 400 without calling the agent; otherwise call
`ragAgent.generateResponse` and answer 200, or 500 when it throws. -/
def chatHandler (agent : String → Except Err AgentResponse)
    (body : Option JsVal) : ChatOutcome :=
  let message := body.getD .undef
  if !(jsTruthy message) || !(jsIsString message) then
    { status := 400, agentInvoked := false }
  else
    match message with
    | .str s =>
      match agent s with
      | .ok _ => { status := 200, agentInvoked := true }
      | .error _ => { status := 500, agentInvoked := true }
    | _ => { status := 400, agentInvoked := false }

/-! ## Proof-side helper definitions -/

/-- The chunk records the ingestion loop would store, starting at index `i`:
`none` when some embedding call fails.  (Specification companion of
`ingestChunks`; it forgets the threaded table.) -/
def storedChunks (env : WorkflowEnv) (doc : String) :
    List ChunkData → Nat → Option (List DocumentChunk)
  | [], _ => some []
  | c :: rest, i =>
    match env.embed ingestionEmbeddingModel c.text with
    | .error _ => none
    | .ok embedding =>
      (storedChunks env doc rest (i + 1)).map (mkDocumentChunk doc i c embedding :: ·)

/-- The `ProcessedDocument` record produced by `processDocument`, which does
not depend on the state of the `document_chunks` table. -/
def processDocumentResult (env : WorkflowEnv) (filePath : String) :
    ProcessedDocument :=
  let documentName := basename filePath ".pdf"
  match env.parse filePath with
  | .error _ => { name := documentName, chunks := 0, status := .error }
  | .ok text =>
    let chunks := env.chunkDoc text
      { strategy := "markdown", size := 1000, overlap := 200 }
    let idxOutcome : Except Err Unit :=
      match env.createIndex documentName 1536 with
      | .error e =>
        if containsSubstr e.message "already exists" then .ok () else .error e
      | .ok _ => .ok ()
    match idxOutcome with
    | .error _ => { name := documentName, chunks := 0, status := .error }
    | .ok _ =>
      match storedChunks env documentName chunks 0 with
      | none => { name := documentName, chunks := 0, status := .error }
      | some stored =>
        match env.upsert documentName
            (stored.map fun dc => (dc.id, dc.embedding)) with
        | .error _ => { name := documentName, chunks := 0, status := .error }
        | .ok _ =>
          { name := documentName, chunks := stored.length, status := .processed }

/-- A table holds the chunk `c` well: some row carries its id, and every row
carrying its id already has its `content` and `embedding`. -/
def HoldsChunk (t : Table) (c : DocumentChunk) : Prop :=
  (∃ r ∈ t, r.id = c.id) ∧
    ∀ s ∈ t, s.id = c.id → s.content = c.content ∧ s.embedding = c.embedding

/-- An agent environment whose embeddings endpoint is down. -/
def embedFailAgentEnv : AgentEnv :=
  { embed := fun _ _ => .error { message := "embedding service down" },
    dist := fun _ _ => 0,
    db := .ok [],
    complete := fun _ => .ok [] }

/-- A healthy concrete agent environment for witnesses. -/
def sampleAgentEnv : AgentEnv :=
  { embed := fun _ _ => .ok [1, 0],
    dist := fun _ _ => 0,
    db := .ok [],
    complete := fun _ => .ok [some "Hello", none, some " world"] }

/-- A healthy concrete workflow environment for witnesses. -/
def sampleWEnv : WorkflowEnv :=
  { parse := fun _ => .ok "sample text",
    chunkDoc := fun _ _ => [{ text := "alpha", page := none },
                            { text := "beta", page := some 2 }],
    createIndex := fun _ _ => .ok (),
    embed := fun _ s => .ok [(s.length : ℚ)],
    upsert := fun _ _ => .ok (),
    readdir := fun _ => .ok ["a.pdf", "notes.txt", "b.pdf"],
    storeQuery := fun _ _ _ => .ok [],
    listIdx := .ok [],
    describeIdx := fun _ => .ok { dimension := 1536, count := 0 } }

/-- A workflow environment whose PDF parser rejects one particular file. -/
def badPdfWEnv : WorkflowEnv :=
  { sampleWEnv with
    parse := fun p =>
      if p = "docs/a.pdf" then .error { message := "bad pdf" }
      else .ok "sample text" }

/-- Two concrete chunks as produced by the sample chunker. -/
def sampleChunks : List ChunkData :=
  [{ text := "alpha", page := none }, { text := "beta", page := some 2 }]

/-- The rows the ingestion loop writes for `sampleChunks` under
`sampleWEnv`. -/
def sampleStored : List DocumentChunk :=
  [{ id := "doc-chunk-0", content := "alpha", document := "doc", page := 1,
     embedding := [5] },
   { id := "doc-chunk-1", content := "beta", document := "doc", page := 2,
     embedding := [4] }]

/-- A concrete table for the upsert-frame witness. -/
def sampleTable : Table :=
  [{ id := "a", content := "old", document := "doc1", page := 1, embedding := [1] },
   { id := "b", content := "keep", document := "doc1", page := 2, embedding := [2] }]

/-- A chunk whose id collides with the first row of `sampleTable`. -/
def sampleChunk : DocumentChunk :=
  { id := "a", content := "new", document := "other", page := 9, embedding := [3] }

/-! ## Lemmas on decimal rendering -/

theorem decChars_of_lt (n : Nat) (h : n < 10) :
    decChars n = [Nat.digitChar n] := by
  rw [decChars]
  simp [h]

theorem decChars_of_ge (n : Nat) (h : ¬ n < 10) :
    decChars n = decChars (n / 10) ++ [Nat.digitChar (n % 10)] := by
  conv_lhs => rw [decChars]
  simp [h]

/-- `Nat.toDigitsCore` in base 10, run with enough fuel, agrees with
`decChars`. -/
theorem toDigitsCore_eq_decChars :
    ∀ (f n : Nat) (acc : List Char), 0 < f → n < 10 ^ f →
      Nat.toDigitsCore 10 f n acc = decChars n ++ acc := by
  intro f
  induction f with
  | zero => intro n acc h; exact absurd h (by omega)
  | succ f ih =>
    intro n acc _ hlt
    by_cases hn : n < 10
    · have hdiv : n / 10 = 0 := Nat.div_eq_of_lt hn
      have hmod : n % 10 = n := Nat.mod_eq_of_lt hn
      simp [Nat.toDigitsCore, hdiv, hmod, decChars_of_lt n hn]
    · have hdiv : ¬ n / 10 = 0 := by
        intro h0
        exact hn (by omega)
      have hfpos : 0 < f := by
        rcases Nat.eq_zero_or_pos f with hf0 | hf
        · subst hf0
          simp at hlt
          omega
        · exact hf
      have hq : n / 10 < 10 ^ f := by
        rw [Nat.div_lt_iff_lt_mul (by omega : 0 < 10)]
        calc n < 10 ^ (f + 1) := hlt
        _ = 10 ^ f * 10 := by rw [Nat.pow_succ]
      simp only [Nat.toDigitsCore, hdiv, if_false]
      rw [ih (n / 10) (Nat.digitChar (n % 10) :: acc) hfpos hq,
        decChars_of_ge n hn]
      simp

/-- `Nat.repr` is the string of `decChars`. -/
theorem repr_eq_decChars (n : Nat) : Nat.repr n = (decChars n).asString := by
  have hfuel : n < 10 ^ (n + 1) := by
    calc n < 2 ^ n := Nat.lt_two_pow n
    _ ≤ 10 ^ n := Nat.pow_le_pow_left (by omega) n
    _ ≤ 10 ^ (n + 1) := Nat.pow_le_pow_right (by omega) (by omega)
  unfold Nat.repr Nat.toDigits
  rw [toDigitsCore_eq_decChars (n + 1) n [] (by omega) hfuel]
  simp

theorem digitChar_decode (d : Nat) (h : d < 10) :
    (Nat.digitChar d).toNat - 48 = d := by
  interval_cases d <;> decide

/-- `decodeDec` is a left inverse of `decChars`. -/
theorem decodeDec_decChars (n : Nat) : decodeDec (decChars n) = n := by
  induction n using Nat.strong_induction_on with
  | _ n ih =>
    by_cases h : n < 10
    · rw [decChars_of_lt n h]
      simp [decodeDec, digitChar_decode n h]
    · rw [decChars_of_ge n h]
      have hdiv : n / 10 < n := Nat.div_lt_self (by omega) (by omega)
      simp only [decodeDec, List.foldl_append, List.foldl_cons, List.foldl_nil]
      have : List.foldl (fun a c => 10 * a + (c.toNat - 48)) 0
          (decChars (n / 10)) = n / 10 := ih (n / 10) hdiv
      rw [this, digitChar_decode (n % 10) (Nat.mod_lt n (by omega))]
      omega

/-- Decimal rendering of naturals is injective. -/
theorem repr_injective : Function.Injective Nat.repr := by
  intro m n h
  rw [repr_eq_decChars, repr_eq_decChars] at h
  have hchars : decChars m = decChars n := by
    have := congrArg String.data h
    simpa [List.asString] using this
  have := congrArg decodeDec hchars
  rwa [decodeDec_decChars, decodeDec_decChars] at this

/-- For a fixed document name the chunk-id template is injective in the
index. -/
theorem chunkId_injective (doc : String) : Function.Injective (chunkId doc) := by
  intro i j h
  apply repr_injective
  apply String.ext
  have hd := congrArg String.data h
  simp only [chunkId, String.data_append] at hd
  exact List.append_cancel_left hd

/-! ## Lemmas on the vector store -/

/-- When a row with the chunk's id exists, the upsert is a pure update of the
`content` and `embedding` columns of the matching rows. -/
theorem storeChunkEval_of_mem (t : Table) (c : DocumentChunk)
    (h : ∃ r ∈ t, r.id = c.id) :
    storeChunkEval t c = t.map fun r =>
      if r.id = c.id then
        { r with content := c.content, embedding := c.embedding }
      else r := by
  obtain ⟨r, hr, hid⟩ := h
  have hany : (List.any t fun r => r.id == c.id) = true :=
    List.any_eq_true.mpr ⟨r, hr, beq_iff_eq.mpr hid⟩
  unfold storeChunkEval
  rw [if_pos hany]
  apply List.map_congr_left
  intro a _
  by_cases hac : a.id = c.id
  · simp [hac]
  · simp [hac]

/-- When no row carries the chunk's id, the upsert appends the chunk as a new
row. -/
theorem storeChunkEval_of_not_mem (t : Table) (c : DocumentChunk)
    (h : ¬ ∃ r ∈ t, r.id = c.id) :
    storeChunkEval t c = t ++ [c] := by
  have hany : (List.any t fun r => r.id == c.id) = false := by
    apply List.any_eq_false.mpr
    intro x hx
    simp only [beq_iff_eq]
    exact fun he => h ⟨x, hx, he⟩
  unfold storeChunkEval
  rw [if_neg (by simp [hany])]

/-- After storing `c`, the table holds `c`. -/
theorem holdsChunk_store_self (t : Table) (c : DocumentChunk) :
    HoldsChunk (storeChunkEval t c) c := by
  by_cases h : ∃ r ∈ t, r.id = c.id
  · rw [storeChunkEval_of_mem t c h]
    obtain ⟨r, hr, hid⟩ := h
    constructor
    · refine ⟨{ r with content := c.content, embedding := c.embedding },
        List.mem_map.mpr ⟨r, hr, by simp [hid]⟩, hid⟩
    · intro s hs hsid
      obtain ⟨a, _, rfl⟩ := List.mem_map.mp hs
      by_cases hac : a.id = c.id
      · simp [hac]
      · simp only [if_neg hac] at hsid ⊢
        exact absurd hsid hac
  · rw [storeChunkEval_of_not_mem t c h]
    constructor
    · exact ⟨c, by simp, rfl⟩
    · intro s hs hsid
      rcases List.mem_append.mp hs with h1 | h2
      · exact absurd ⟨s, h1, hsid⟩ h
      · simp only [List.mem_singleton] at h2
        subst h2
        exact ⟨rfl, rfl⟩

/-- Storing a chunk with a different id does not disturb a held chunk. -/
theorem holdsChunk_store_preserve (t : Table) (c d : DocumentChunk)
    (h : HoldsChunk t c) (hne : d.id ≠ c.id) :
    HoldsChunk (storeChunkEval t d) c := by
  obtain ⟨⟨r, hr, hid⟩, hall⟩ := h
  by_cases hd : ∃ s ∈ t, s.id = d.id
  · rw [storeChunkEval_of_mem t d hd]
    constructor
    · refine ⟨r, List.mem_map.mpr ⟨r, hr, ?_⟩, hid⟩
      rw [if_neg]
      intro hrd
      exact hne (hrd.symm.trans hid)
    · intro s hs hsid
      obtain ⟨a, ha, rfl⟩ := List.mem_map.mp hs
      by_cases had : a.id = d.id
      · rw [if_pos had] at hsid
        exact absurd (had.symm.trans hsid) hne
      · rw [if_neg had] at hsid ⊢
        exact hall a ha hsid
  · rw [storeChunkEval_of_not_mem t d hd]
    constructor
    · exact ⟨r, List.mem_append_left _ hr, hid⟩
    · intro s hs hsid
      rcases List.mem_append.mp hs with h1 | h2
      · exact hall s h1 hsid
      · simp only [List.mem_singleton] at h2
        subst h2
        exact absurd hsid hne

/-- Storing a chunk the table already holds leaves the table unchanged. -/
theorem store_of_holds (t : Table) (c : DocumentChunk)
    (h : HoldsChunk t c) : storeChunkEval t c = t := by
  obtain ⟨hex, hall⟩ := h
  rw [storeChunkEval_of_mem t c hex]
  conv_rhs => rw [← List.map_id t]
  apply List.map_congr_left
  intro a ha
  by_cases hac : a.id = c.id
  · obtain ⟨h1, h2⟩ := hall a ha hac
    rw [if_pos hac]
    cases a
    simp only at h1 h2
    simp [h1, h2]
  · rw [if_neg hac]
    rfl

/-- Refolding chunks a table already holds is the identity. -/
theorem foldl_store_of_holds (cs : List DocumentChunk) (t : Table)
    (h : ∀ c ∈ cs, HoldsChunk t c) :
    List.foldl storeChunkEval t cs = t := by
  induction cs with
  | nil => rfl
  | cons c rest ih =>
    simp only [List.foldl_cons]
    rw [store_of_holds t c (h c (by simp))]
    exact ih fun d hd => h d (by simp [hd])

/-- Holding a chunk survives storing chunks with other ids. -/
theorem holds_foldl_store_preserve (cs : List DocumentChunk) (t : Table)
    (c : DocumentChunk) (h : HoldsChunk t c) (hne : ∀ d ∈ cs, d.id ≠ c.id) :
    HoldsChunk (List.foldl storeChunkEval t cs) c := by
  induction cs generalizing t with
  | nil => exact h
  | cons d rest ih =>
    simp only [List.foldl_cons]
    exact ih (storeChunkEval t d)
      (holdsChunk_store_preserve t c d h (hne d (by simp)))
      fun x hx => hne x (by simp [hx])

/-- After folding a list of chunks with pairwise-distinct ids into the table,
the table holds each of them. -/
theorem holds_after_foldl (cs : List DocumentChunk) (t : Table)
    (hnd : (cs.map fun dc => dc.id).Nodup) :
    ∀ c ∈ cs, HoldsChunk (List.foldl storeChunkEval t cs) c := by
  induction cs generalizing t with
  | nil => intro c hc; cases hc
  | cons d rest ih =>
    intro c hc
    simp only [List.map_cons, List.nodup_cons] at hnd
    obtain ⟨hdn, hrest⟩ := hnd
    simp only [List.foldl_cons]
    rcases List.mem_cons.mp hc with rfl | hcr
    · apply holds_foldl_store_preserve rest (storeChunkEval t c) c
        (holdsChunk_store_self t c)
      intro x hx hxc
      exact hdn (hxc ▸ List.mem_map_of_mem (fun dc => dc.id) hx)
    · exact ih (storeChunkEval t d) hrest c hcr

/-! ## Lemmas on the ingestion loop -/

/-- A successful ingestion loop stores exactly `storedChunks` and folds them
into the table, from any starting table. -/
theorem ingestChunks_ok_of_stored (env : WorkflowEnv) (doc : String) :
    ∀ (cs : List ChunkData) (i : Nat) (stored : List DocumentChunk),
      storedChunks env doc cs i = some stored →
      ∀ t, ingestChunks env doc cs i t =
        .ok (List.foldl storeChunkEval t stored, stored) := by
  intro cs
  induction cs with
  | nil =>
    intro i stored h t
    simp only [storedChunks, Option.some.injEq] at h
    subst h
    rfl
  | cons c rest ih =>
    intro i stored h t
    simp only [storedChunks] at h
    cases hemb : env.embed ingestionEmbeddingModel c.text with
    | error e => rw [hemb] at h; simp at h
    | ok emb =>
      rw [hemb] at h
      cases hrest : storedChunks env doc rest (i + 1) with
      | none => rw [hrest] at h; simp at h
      | some s2 =>
        rw [hrest] at h
        simp only [Option.map_some', Option.some.injEq] at h
        subst h
        simp only [ingestChunks, hemb]
        rw [ih (i + 1) s2 hrest (storeChunkEval t (mkDocumentChunk doc i c emb))]
        rfl

/-- Conversely, a successful run of the loop determines `storedChunks` and
the final table. -/
theorem ingestChunks_stored (env : WorkflowEnv) (doc : String) :
    ∀ (cs : List ChunkData) (i : Nat) (t t' : Table)
      (stored : List DocumentChunk),
      ingestChunks env doc cs i t = .ok (t', stored) →
      storedChunks env doc cs i = some stored ∧
        t' = List.foldl storeChunkEval t stored := by
  intro cs
  induction cs with
  | nil =>
    intro i t t' stored h
    simp only [ingestChunks, Except.ok.injEq, Prod.mk.injEq] at h
    obtain ⟨h1, h2⟩ := h
    subst h1; subst h2
    exact ⟨rfl, rfl⟩
  | cons c rest ih =>
    intro i t t' stored h
    simp only [ingestChunks] at h
    cases hemb : env.embed ingestionEmbeddingModel c.text with
    | error e => rw [hemb] at h; simp at h
    | ok emb =>
      rw [hemb] at h
      simp only at h
      cases hrec : ingestChunks env doc rest (i + 1)
          (storeChunkEval t (mkDocumentChunk doc i c emb)) with
      | error te => rw [hrec] at h; simp at h
      | ok p =>
        rw [hrec] at h
        obtain ⟨t2, s2⟩ := p
        simp only [Except.ok.injEq, Prod.mk.injEq] at h
        obtain ⟨h1, h2⟩ := h
        subst h1; subst h2
        obtain ⟨hs, hf⟩ := ih (i + 1) _ _ _ hrec
        constructor
        · simp [storedChunks, hemb, hs]
        · rw [hf]
          rfl

/-- A failed run of the loop means some embedding call failed. -/
theorem storedChunks_none_of_error (env : WorkflowEnv) (doc : String) :
    ∀ (cs : List ChunkData) (i : Nat) (t t' : Table) (e : Err),
      ingestChunks env doc cs i t = .error (t', e) →
      storedChunks env doc cs i = none := by
  intro cs
  induction cs with
  | nil => intro i t t' e h; simp [ingestChunks] at h
  | cons c rest ih =>
    intro i t t' e h
    simp only [ingestChunks] at h
    cases hemb : env.embed ingestionEmbeddingModel c.text with
    | error e2 => simp [storedChunks, hemb]
    | ok emb =>
      rw [hemb] at h
      simp only at h
      cases hrec : ingestChunks env doc rest (i + 1)
          (storeChunkEval t (mkDocumentChunk doc i c emb)) with
      | error te =>
        obtain ⟨t2, e2⟩ := te
        have hnone := ih (i + 1) _ t2 e2 hrec
        simp [storedChunks, hemb, hnone]
      | ok p => rw [hrec] at h; simp at h

/-- The ids of the stored chunks are consecutive applications of the
chunk-id template. -/
theorem storedChunks_ids (env : WorkflowEnv) (doc : String) :
    ∀ (cs : List ChunkData) (i : Nat) (stored : List DocumentChunk),
      storedChunks env doc cs i = some stored →
      stored.map (fun dc => dc.id) =
        (List.range' i cs.length).map (chunkId doc) := by
  intro cs
  induction cs with
  | nil =>
    intro i stored h
    simp only [storedChunks, Option.some.injEq] at h
    subst h
    rfl
  | cons c rest ih =>
    intro i stored h
    simp only [storedChunks] at h
    cases hemb : env.embed ingestionEmbeddingModel c.text with
    | error e => rw [hemb] at h; simp at h
    | ok emb =>
      rw [hemb] at h
      cases hrest : storedChunks env doc rest (i + 1) with
      | none => rw [hrest] at h; simp at h
      | some s2 =>
        rw [hrest] at h
        simp only [Option.map_some', Option.some.injEq] at h
        subst h
        simp only [List.map_cons, List.length_cons, List.range'_succ]
        rw [ih (i + 1) s2 hrest]
        rfl

/-- Chunk ids stored for one document are pairwise distinct. -/
theorem storedChunks_ids_nodup (env : WorkflowEnv) (doc : String)
    (cs : List ChunkData) (i : Nat) (stored : List DocumentChunk)
    (h : storedChunks env doc cs i = some stored) :
    (stored.map fun dc => dc.id).Nodup := by
  rw [storedChunks_ids env doc cs i stored h]
  exact (List.nodup_range' ..).map (chunkId_injective doc)

/-! ## Lemmas on `processDocument` -/

/-- The result record of `processDocument` does not depend on the initial
table. -/
theorem processDocument_fst (env : WorkflowEnv) (t : Table) (filePath : String) :
    (processDocument env t filePath).1 = processDocumentResult env filePath := by
  unfold processDocument processDocumentResult
  cases hp : env.parse filePath with
  | error e => rfl
  | ok text =>
    simp only []
    cases hidx : (match env.createIndex (basename filePath ".pdf") 1536 with
      | .error e =>
        if containsSubstr e.message "already exists" then Except.ok ()
        else Except.error e
      | .ok _ => Except.ok ()) with
    | error e => rfl
    | ok u =>
      simp only []
      cases hing : ingestChunks env (basename filePath ".pdf")
          (env.chunkDoc text { strategy := "markdown", size := 1000, overlap := 200 })
          0 t with
      | error te =>
        obtain ⟨t2, e2⟩ := te
        rw [storedChunks_none_of_error env _ _ _ _ _ _ hing]
      | ok p =>
        obtain ⟨t2, stored⟩ := p
        rw [(ingestChunks_stored env _ _ _ _ _ _ hing).1]
        dsimp only
        cases env.upsert (basename filePath ".pdf")
            (List.map (fun dc => (dc.id, dc.embedding)) stored) with
        | error e => rfl
        | ok u2 => rfl

/-- The results of `processAllDocuments`'s loop: one record per file, each
independent of the threaded table. -/
theorem processFiles_fst (env : WorkflowEnv) (dir : String) :
    ∀ (fs : List String) (t : Table),
      (processFiles env dir fs t).1 =
        fs.map fun f => processDocumentResult env (joinPath dir f) := by
  intro fs
  induction fs with
  | nil => intro t; rfl
  | cons f rest ih =>
    intro t
    simp only [processFiles, List.map_cons]
    rw [processDocument_fst, ih]

/-! ## The claims -/

/-- Claim C1, counterexample: `RAGAgent.generateResponse` has no try/catch,
so a failing embedding call is NOT converted into a default value — the
error propagates to the caller.  Here the embeddings endpoint of
`embedFailAgentEnv` fails and `generateResponse` returns that very error. -/
theorem claim1_counterexample :
    (generateResponse embedFailAgentEnv "hello" []).1 =
      .error { message := "embedding service down" } := rfl

/-- Claim C1, amended: failures are caught at the boundary of the
document-processing workflow's public methods (`processDocument`,
`processAllDocuments`, `searchSimilarContent`, `listIndexes`,
`getIndexStats`), which return the default/empty values; the vector-store
methods (`searchSimilarChunks`, `storeChunk`) and
`RAGAgent.generateResponse` have no such boundary and propagate failures to
their caller (the HTTP handlers). -/
theorem claim1_amended_boundaries :
    (∀ (env : WorkflowEnv) (t : Table) (f : String) (e : Err),
      env.parse f = .error e →
      processDocument env t f =
        ({ name := basename f ".pdf", chunks := 0, status := .error }, t)) ∧
    (∀ (env : WorkflowEnv) (t : Table) (d : String) (e : Err),
      env.readdir d = .error e → processAllDocuments env t d = ([], t)) ∧
    (∀ (env : WorkflowEnv) (query idx : String) (k : Nat) (e : Err),
      env.embed ingestionEmbeddingModel query = .error e →
      searchSimilarContent env query idx k = []) ∧
    (∀ (env : WorkflowEnv) (e : Err),
      env.listIdx = .error e → listIndexes env = []) ∧
    (∀ (env : WorkflowEnv) (idx : String) (e : Err),
      env.describeIdx idx = .error e → getIndexStats env idx = none) ∧
    (∀ (env : AgentEnv) (msg : String) (hist : List ChatMessage) (e : Err),
      env.embed queryEmbeddingModel msg = .error e →
      (generateResponse env msg hist).1 = .error e) ∧
    (∀ (dist : List ℚ → List ℚ → ℚ) (q : List ℚ) (k : Nat) (e : Err),
      searchSimilarChunks dist (.error e) q k = .error e) ∧
    (∀ (c : DocumentChunk) (e : Err), storeChunk (.error e) c = .error e) := by
  refine ⟨?_, ?_, ?_, ?_, ?_, ?_, ?_, ?_⟩
  · intro env t f e h
    simp [processDocument, h]
  · intro env t d e h
    simp [processAllDocuments, h]
  · intro env query idx k e h
    simp [searchSimilarContent, h]
  · intro env e h
    simp [listIndexes, h]
  · intro env idx e h
    simp [getIndexStats, h]
  · intro env msg hist e h
    simp [generateResponse, h]
  · intro dist q k e
    rfl
  · intro c e
    rfl

/-- Claim C2: for every query embedding and limit, `searchSimilarChunks`
returns at most `limit` rows, every returned row is the projection of a
stored row with `similarity = 1 - distance(stored embedding, query)`, and
the rows are ordered in descending similarity (ascending distance). -/
theorem claim2_search_spec (dist : List ℚ → List ℚ → ℚ) (t : Table)
    (q : List ℚ) (k : Nat) :
    ∃ rows : List SearchResult,
      searchSimilarChunks dist (.ok t) q k = .ok rows ∧
      rows.length ≤ k ∧
      (∀ r ∈ rows, ∃ row ∈ t,
        r.id = row.id ∧ r.content = row.content ∧ r.document = row.document ∧
        r.page = row.page ∧ r.similarity = 1 - dist row.embedding q) ∧
      rows.Pairwise fun a b => b.similarity ≤ a.similarity := by
  refine ⟨searchEval dist t q k, rfl, ?_, ?_, ?_⟩
  · simp only [searchEval, List.length_map, List.length_take]
    exact Nat.min_le_left _ _
  · intro r hr
    simp only [searchEval, List.mem_map] at hr
    obtain ⟨row, hrow, rfl⟩ := hr
    exact ⟨row, List.mem_mergeSort.mp (List.mem_of_mem_take hrow),
      rfl, rfl, rfl, rfl, rfl⟩
  · have hs : (List.mergeSort t fun r s =>
        decide (dist r.embedding q ≤ dist s.embedding q)).Pairwise
        (fun r s => decide (dist r.embedding q ≤ dist s.embedding q) = true) := by
      apply List.sorted_mergeSort
      · intro a b c hab hbc
        simp only [decide_eq_true_eq] at *
        exact le_trans hab hbc
      · intro a b
        simp only [Bool.or_eq_true, decide_eq_true_eq]
        exact le_total _ _
    have htake := List.Pairwise.sublist (List.take_sublist k _) hs
    apply List.pairwise_map.mpr
    apply htake.imp
    intro a b hab
    simp only [decide_eq_true_eq] at hab
    exact sub_le_sub_left hab 1

/-- Claim C3: when a chunk's id is already present, `storeChunk` rewrites
only the `content` and `embedding` columns of the matching row; `document`
and `page` stay, all other rows stay, and the table length is unchanged. -/
theorem claim3_upsert_frame (t : Table) (c : DocumentChunk)
    (h : ∃ r ∈ t, r.id = c.id) :
    (storeChunkEval t c =
      t.map fun r =>
        if r.id = c.id then
          { r with content := c.content, embedding := c.embedding }
        else r) ∧
    (storeChunkEval t c).length = t.length ∧
    (∀ r ∈ t, r.id ≠ c.id → r ∈ storeChunkEval t c) ∧
    ∀ r ∈ t, r.id = c.id →
      { r with content := c.content, embedding := c.embedding } ∈
        storeChunkEval t c := by
  have hmap := storeChunkEval_of_mem t c h
  refine ⟨hmap, ?_, ?_, ?_⟩
  · rw [hmap, List.length_map]
  · intro r hr hne
    rw [hmap]
    exact List.mem_map.mpr ⟨r, hr, by rw [if_neg hne]⟩
  · intro r hr heq
    rw [hmap]
    exact List.mem_map.mpr ⟨r, hr, by rw [if_pos heq]⟩

/-- Witness for C3 at a concrete two-row table. -/
theorem claim3_witness :
    (∃ r ∈ sampleTable, r.id = sampleChunk.id) ∧
    (storeChunkEval sampleTable sampleChunk).length = sampleTable.length :=
  ⟨by decide, (claim3_upsert_frame sampleTable sampleChunk (by decide)).2.1⟩

/-- Claim C4: with a readable directory, `processAllDocuments` produces
exactly one result per `.pdf` file, each result independent of what happened
to earlier files, and a document whose PDF parse fails yields
`{name, chunks: 0, status: 'error'}` without aborting the batch. -/
theorem claim4_failure_isolation (env : WorkflowEnv) (t : Table) (dir : String)
    (files : List String) (hr : env.readdir dir = .ok files) :
    ((processAllDocuments env t dir).1 =
      (files.filter fun f => strEndsWith f ".pdf").map
        fun f => (processDocument env t (joinPath dir f)).1) ∧
    ((processAllDocuments env t dir).1.length =
      (files.filter fun f => strEndsWith f ".pdf").length) ∧
    ∀ f ∈ files.filter fun f => strEndsWith f ".pdf", ∀ (e : Err) (u : Table),
      env.parse (joinPath dir f) = .error e →
      (processDocument env u (joinPath dir f)).1 =
        { name := basename (joinPath dir f) ".pdf", chunks := 0,
          status := .error } := by
  have hmain : (processAllDocuments env t dir).1 =
      (files.filter fun f => strEndsWith f ".pdf").map
        fun f => processDocumentResult env (joinPath dir f) := by
    simp only [processAllDocuments, hr]
    exact processFiles_fst env dir _ t
  refine ⟨?_, ?_, ?_⟩
  · rw [hmain]
    exact List.map_congr_left fun f _ => (processDocument_fst env t _).symm
  · rw [hmain, List.length_map]
  · intro f _ e u hp
    rw [processDocument_fst]
    simp [processDocumentResult, hp]

/-- Witness for C4: a directory with two PDFs among three files, the first
PDF unreadable; the batch still yields two results. -/
theorem claim4_witness :
    (badPdfWEnv.readdir "docs" = .ok ["a.pdf", "notes.txt", "b.pdf"]) ∧
    (processAllDocuments badPdfWEnv [] "docs").1.length = 2 := by
  refine ⟨rfl, ?_⟩
  rw [(claim4_failure_isolation badPdfWEnv [] "docs"
    ["a.pdf", "notes.txt", "b.pdf"] rfl).2.1]
  decide

/-- Claim C5: a successful ingestion of a document chunked into `n` pieces
stores ids exactly `{document}-chunk-0 … {document}-chunk-(n-1)`, and these
ids are pairwise distinct. -/
theorem claim5_chunk_ids (env : WorkflowEnv) (doc : String)
    (cs : List ChunkData) (t t' : Table) (stored : List DocumentChunk)
    (h : ingestChunks env doc cs 0 t = .ok (t', stored)) :
    ((stored.map fun dc => dc.id) =
      (List.range cs.length).map fun i => chunkId doc i) ∧
    (stored.map fun dc => dc.id).Nodup := by
  have hst := (ingestChunks_stored env doc cs 0 t t' stored h).1
  constructor
  · rw [storedChunks_ids env doc cs 0 stored hst, List.range_eq_range']
  · exact storedChunks_ids_nodup env doc cs 0 stored hst

/-- Witness for C5 at a concrete two-chunk ingestion. -/
theorem claim5_witness :
    (ingestChunks sampleWEnv "doc" sampleChunks 0 [] =
      .ok (sampleStored, sampleStored)) ∧
    (sampleStored.map fun dc => dc.id).Nodup :=
  ⟨by decide,
    (claim5_chunk_ids sampleWEnv "doc" sampleChunks [] sampleStored
      sampleStored (by decide)).2⟩

/-- Claim C6: re-ingesting the same document over the table produced by its
first ingestion stores the same chunk sequence (hence the same ids) and
leaves the table exactly as it was — the upsert loop is idempotent. -/
theorem claim6_reingest_idempotent (env : WorkflowEnv) (doc : String)
    (cs : List ChunkData) (t t₁ : Table) (stored : List DocumentChunk)
    (h : ingestChunks env doc cs 0 t = .ok (t₁, stored)) :
    ingestChunks env doc cs 0 t₁ = .ok (t₁, stored) := by
  obtain ⟨hst, hfold⟩ := ingestChunks_stored env doc cs 0 t t₁ stored h
  have hnd := storedChunks_ids_nodup env doc cs 0 stored hst
  have hhold : ∀ c ∈ stored, HoldsChunk t₁ c := by
    rw [hfold]
    exact holds_after_foldl stored t hnd
  rw [ingestChunks_ok_of_stored env doc cs 0 stored hst t₁,
    foldl_store_of_holds stored t₁ hhold]

/-- Witness for C6: the second ingestion over the sample table is literally
the first one's output. -/
theorem claim6_witness :
    ingestChunks sampleWEnv "doc" sampleChunks 0 sampleStored =
      .ok (sampleStored, sampleStored) :=
  claim6_reingest_idempotent sampleWEnv "doc" sampleChunks [] sampleStored
    sampleStored (by decide)

/-- Claim C7: on the success path, `generateResponse` makes exactly one
embedding call on the user message, one retrieval with limit 5, and one
completion call with temperature 0.7 and max 1000 tokens, and returns the
concatenated completion text together with the retrieved chunks. -/
theorem claim7_agent_pipeline (env : AgentEnv) (msg : String)
    (hist : List ChatMessage) (qe : List ℚ) (chunks : List SearchResult)
    (deltas : List (Option String))
    (he : env.embed queryEmbeddingModel msg = .ok qe)
    (hs : searchSimilarChunks env.dist env.db qe 5 = .ok chunks)
    (hc : env.complete
      (mkCompletionRequest (chatMessages msg hist (contextOf chunks))) =
        .ok deltas) :
    (generateResponse env msg hist =
      (.ok { response := String.join (deltas.map fun d => d.getD ""),
             sources := chunks },
       [.embedCall queryEmbeddingModel msg, .searchCall qe 5,
        .completionCall
          (mkCompletionRequest (chatMessages msg hist (contextOf chunks)))])) ∧
    (mkCompletionRequest (chatMessages msg hist (contextOf chunks))).temperature
      = 7/10 ∧
    (mkCompletionRequest (chatMessages msg hist (contextOf chunks))).maxTokens
      = 1000 ∧
    ((generateResponse env msg hist).2.countP fun c =>
      match c with | .embedCall _ _ => true | _ => false) = 1 ∧
    ((generateResponse env msg hist).2.countP fun c =>
      match c with | .completionCall _ => true | _ => false) = 1 := by
  have hmain : generateResponse env msg hist =
      (.ok { response := String.join (deltas.map fun d => d.getD ""),
             sources := chunks },
       [.embedCall queryEmbeddingModel msg, .searchCall qe 5,
        .completionCall
          (mkCompletionRequest (chatMessages msg hist (contextOf chunks)))]) := by
    simp only [generateResponse, he, hs, hc]
  refine ⟨hmain, rfl, rfl, ?_, ?_⟩ <;> simp only [hmain] <;> rfl

/-- Witness for C7 over a healthy concrete environment: the streamed deltas
`["Hello", ∅, " world"]` come back concatenated. -/
theorem claim7_witness :
    (sampleAgentEnv.embed queryEmbeddingModel "hi" = .ok [1, 0]) ∧
    (generateResponse sampleAgentEnv "hi" []).1 =
      .ok { response := "Hello world", sources := [] } := by
  have hs : searchSimilarChunks sampleAgentEnv.dist sampleAgentEnv.db [1, 0] 5 =
      .ok [] := by
    simp [searchSimilarChunks, searchEval, sampleAgentEnv]
  refine ⟨rfl, ?_⟩
  rw [(claim7_agent_pipeline sampleAgentEnv "hi" [] [1, 0] []
    [some "Hello", none, some " world"] rfl hs rfl).1]
  rfl

/-- Claim C8: a chat request whose `message` field is absent or not a string
is answered 400 and the agent is never invoked. -/
theorem claim8_reject_nonstring (agent : String → Except Err AgentResponse)
    (body : Option JsVal)
    (h : body = none ∨ ∃ v, body = some v ∧ jsIsString v = false) :
    chatHandler agent body = { status := 400, agentInvoked := false } := by
  rcases h with rfl | ⟨v, rfl, hv⟩
  · rfl
  · cases v with
    | str s => simp [jsIsString] at hv
    | undef => rfl
    | null => rfl
    | bool b => cases b <;> rfl
    | num q => simp [chatHandler, jsTruthy, jsIsString]
    | arr => rfl
    | obj => rfl

/-- Witness for C8: a numeric `message` is rejected with 400. -/
theorem claim8_witness :
    (some (JsVal.num 5) = none ∨
      ∃ v, some (JsVal.num 5) = some v ∧ jsIsString v = false) ∧
    chatHandler (fun _ => .error { message := "x" }) (some (.num 5)) =
      { status := 400, agentInvoked := false } :=
  ⟨Or.inr ⟨.num 5, rfl, rfl⟩,
    claim8_reject_nonstring _ _ (Or.inr ⟨.num 5, rfl, rfl⟩)⟩

/-- Claim C9: ingestion embeds chunks with `text-embedding-3-small` while
the chat agent embeds queries with `text-embedding-ada-002`; the two model
identifiers differ, so search compares vectors from different models. -/
theorem claim9_models_differ :
    ingestionEmbeddingModel = "text-embedding-3-small" ∧
    queryEmbeddingModel = "text-embedding-ada-002" ∧
    ingestionEmbeddingModel ≠ queryEmbeddingModel ∧
    (∀ (env : AgentEnv) (msg : String) (hist : List ChatMessage),
      (generateResponse env msg hist).2.head? =
        some (.embedCall queryEmbeddingModel msg)) ∧
    (∀ (env : WorkflowEnv) (doc : String) (c : ChunkData)
      (rest : List ChunkData) (i : Nat) (t : Table) (e : Err),
      env.embed ingestionEmbeddingModel c.text = .error e →
      ingestChunks env doc (c :: rest) i t = .error (t, e)) := by
  refine ⟨rfl, rfl, by decide, ?_, ?_⟩
  · intro env msg hist
    unfold generateResponse
    cases env.embed queryEmbeddingModel msg with
    | error e => rfl
    | ok qe =>
      dsimp only
      cases searchSimilarChunks env.dist env.db qe 5 with
      | error e => rfl
      | ok chunks =>
        dsimp only
        cases env.complete
            (mkCompletionRequest (chatMessages msg hist (contextOf chunks))) with
        | error e => rfl
        | ok deltas => rfl
  · intro env doc c rest i t e h
    simp [ingestChunks, h]

/-- Claim C10: the empty string is falsy in JavaScript, so a chat request
with `message: ""` is also rejected with 400 and the agent is not invoked. -/
theorem claim10_reject_empty (agent : String → Except Err AgentResponse) :
    chatHandler agent (some (.str "")) =
      { status := 400, agentInvoked := false } := rfl

end RAG
